import Mathlib

/-!
Verification development for the OQE estimator core of hera_pspec
(file pspecdata.py, class PSpecData).

The numerical code works on complex numpy arrays.  We embed the
matrix pipeline over an arbitrary field K equipped with a star
operation (conjugation); every statement proved here holds in
particular for the complex numbers, and concrete witnesses
instantiate K at the rationals, where everything evaluates.

Dimension conventions, following the source:
  nd = spw_Ndlys   (number of delay bins)
  nf = spw_Nfreqs  (number of channels in the unextended window)
  nx = spw_Nfreqs + sum(filter_extension)  (extended channel count)
  nt = Ntimes

External numerical primitives of numpy/uvtools (np.sinc, np.sqrt,
np.linalg.inv/pinv/eig, the beam integral, the taper window) are
transcendental or LAPACK-backed; they enter the embedding as
function parameters, while all of the surrounding linear algebra is
translated directly from the source.
-/

namespace HeraPspec

open Matrix
open scoped BigOperators

/-- Row sum of a matrix, numpy np.sum(A, axis=1). -/
def rowSum {m n : ℕ} {K : Type} [AddCommMonoid K]
    (A : Matrix (Fin m) (Fin n) K) (i : Fin m) : K :=
  ∑ j, A i j

section EstimatorCore

variable {K : Type} [Field K] [StarRing K]
variable {nd nf nx nt : ℕ}

/-- The unextended kernel used by _get_G and _get_H:
Q1 = self.get_Q_alt(ch) * qnorm1, where qnorm1 is the elementwise
(Hadamard) exact-normalization factor del_tau * integral_beam when
exact_norm is set and the scalar 1 otherwise. -/
def qKernel1 (exact : Bool) (Qalt1 : Fin nd → Matrix (Fin nf) (Fin nf) K)
    (qn1 : Matrix (Fin nf) (Fin nf) K) (ch : Fin nd) :
    Matrix (Fin nf) (Fin nf) K :=
  if exact then (Qalt1 ch).hadamard qn1 else Qalt1 ch

/-- The extended kernel Q2 = self.get_Q_alt(ch, include_extension=True)
* qnorm2 used on the second side of _get_G and _get_H. -/
def qKernel2 (exact : Bool) (Qalt2 : Fin nd → Matrix (Fin nx) (Fin nx) K)
    (qn2 : Matrix (Fin nx) (Fin nx) K) (ch : Fin nd) :
    Matrix (Fin nx) (Fin nx) K :=
  if exact then (Qalt2 ch).hadamard qn2 else Qalt2 ch

/-- The sinc dampening matrix built by _get_H when sampling=False:
sinc_matrix[i,j] = np.sinc((i-j)/nfreq).  The scalar function
d = i - j together with the division by nfreq and np.sinc is
abstracted into sincF, since sinc is transcendental. -/
def sincMatrix (sincF : ℤ → K) : Matrix (Fin nx) (Fin nx) K :=
  Matrix.of fun i j => sincF ((i : ℤ) - (j : ℤ))

/-- Single-time G matrix, the cache-miss computation of
PSpecData._get_G:
  iR1Q1[ch] = conj(R1).T @ Q1(ch),  iR2Q2[ch] = R2 @ Q2(ch),
  G[i,j] = trace(iR1Q1[i] @ iR2Q2[j]) / 2. -/
def computeG (R1 R2 : Matrix (Fin nf) (Fin nx) K)
    (Qalt1 : Fin nd → Matrix (Fin nf) (Fin nf) K)
    (Qalt2 : Fin nd → Matrix (Fin nx) (Fin nx) K)
    (exact : Bool) (qn1 : Matrix (Fin nf) (Fin nf) K)
    (qn2 : Matrix (Fin nx) (Fin nx) K) :
    Matrix (Fin nd) (Fin nd) K :=
  Matrix.of fun i j =>
    Matrix.trace ((R1ᴴ * qKernel1 exact Qalt1 qn1 i) *
      (R2 * qKernel2 exact Qalt2 qn2 j)) / 2

/-- Single-time H matrix, the cache-miss computation of
PSpecData._get_H: identical to computeG except that when
sampling=False the extended kernel is elementwise multiplied by the
sinc dampening matrix (Q2 *= sinc_matrix). -/
def computeH (R1 R2 : Matrix (Fin nf) (Fin nx) K)
    (Qalt1 : Fin nd → Matrix (Fin nf) (Fin nf) K)
    (Qalt2 : Fin nd → Matrix (Fin nx) (Fin nx) K)
    (exact : Bool) (qn1 : Matrix (Fin nf) (Fin nf) K)
    (qn2 : Matrix (Fin nx) (Fin nx) K)
    (sincF : ℤ → K) (sampling : Bool) :
    Matrix (Fin nd) (Fin nd) K :=
  Matrix.of fun i j =>
    Matrix.trace ((R1ᴴ * qKernel1 exact Qalt1 qn1 i) *
      (R2 * (if sampling then qKernel2 exact Qalt2 qn2 j
             else (qKernel2 exact Qalt2 qn2 j).hadamard (sincMatrix sincF)))) / 2

variable [DecidableEq K]

/-- PSpecData.get_G restricted to a list of requested times given as
Fin nt: stacks the per-time _get_G results and, when the stack is
numerically all-zero, substitutes the identity matrix for every
requested time. -/
def getG (R1 R2 : Fin nt → Matrix (Fin nf) (Fin nx) K)
    (Qalt1 : Fin nd → Matrix (Fin nf) (Fin nf) K)
    (Qalt2 : Fin nd → Matrix (Fin nx) (Fin nx) K)
    (exact : Bool) (qn1 : Matrix (Fin nf) (Fin nf) K)
    (qn2 : Matrix (Fin nx) (Fin nx) K) :
    Fin nt → Matrix (Fin nd) (Fin nd) K :=
  let Gs := fun t => computeG (R1 t) (R2 t) Qalt1 Qalt2 exact qn1 qn2
  if ∀ t i j, Gs t i j = 0 then fun _ => (1 : Matrix (Fin nd) (Fin nd) K)
  else Gs

/-- PSpecData.get_H with the same all-zero to identity substitution
as get_G. -/
def getH (R1 R2 : Fin nt → Matrix (Fin nf) (Fin nx) K)
    (Qalt1 : Fin nd → Matrix (Fin nf) (Fin nf) K)
    (Qalt2 : Fin nd → Matrix (Fin nx) (Fin nx) K)
    (exact : Bool) (qn1 : Matrix (Fin nf) (Fin nf) K)
    (qn2 : Matrix (Fin nx) (Fin nx) K)
    (sincF : ℤ → K) (sampling : Bool) :
    Fin nt → Matrix (Fin nd) (Fin nd) K :=
  let Hs := fun t => computeH (R1 t) (R2 t) Qalt1 Qalt2 exact qn1 qn2 sincF sampling
  if ∀ t i j, Hs t i j = 0 then fun _ => (1 : Matrix (Fin nd) (Fin nd) K)
  else Hs

/-- Single-time W matrix, the cache-miss computation of
PSpecData._get_W as a function of the already computed M and H:
W = M @ H, then for mode H^-1 the rows of W are renormalized by
their own sums, and for mode I the matrix is replaced by
diag(1/rowsum(H)) @ H. -/
def computeW (M H : Matrix (Fin nd) (Fin nd) K) (mode : String) :
    Matrix (Fin nd) (Fin nd) K :=
  let W := M * H
  if mode = "H^-1" then Matrix.of fun i j => W i j / rowSum W i
  else if mode = "I" then (Matrix.diagonal fun i => 1 / rowSum H i) * H
  else W

/-- Extension-truncation matrix built inside PSpecData.R:
tmat = zeros((spw_Nfreqs, nfreq)); tmat[:, fext0:fext0+spw_Nfreqs] = identity.
Entry (i,j) is 1 exactly when j = fext0 + i. -/
def tmatTrunc (fext0 : ℕ) : Matrix (Fin nf) (Fin nx) K :=
  Matrix.of fun i j => if (j : ℕ) = fext0 + (i : ℕ) then 1 else 0

/-- The per-time kernel of PSpecData.R in the identity data-weighting
branch: rmat[m] = self.I(key) * np.sqrt(outer(Y[:,m], Y[:,m])),
an elementwise product.  np.sqrt is abstracted into sqrtF. -/
def rmatIdentity (sqrtF : K → K) (Imat : Matrix (Fin nx) (Fin nx) K)
    (y : Fin nx → K) : Matrix (Fin nx) (Fin nx) K :=
  Matrix.of fun i j => Imat i j * sqrtF (y i * y j)

/-- One time slice of PSpecData.R with identity data weighting:
the truncated kernel tmat @ rmat, with each row i then multiplied by
the taper entry myT[i] (myT.T * rmat broadcasting).  For
taper=none the source sets myT = np.ones(spw_Nfreqs). -/
def Rsingle_identity (taperVec : Fin nf → K) (sqrtF : K → K)
    (y : Fin nx → K) (fext0 : ℕ) : Matrix (Fin nf) (Fin nx) K :=
  Matrix.of fun i j =>
    taperVec i *
      (((tmatTrunc fext0 * rmatIdentity sqrtF 1 y :
        Matrix (Fin nf) (Fin nx) K)) i j)

/-- The exact-norm branch of PSpecData.q_hat: for each delay a,
Q = del_tau * get_Q_alt(a) * integral_beam (all elementwise), and
q[a,t] = 0.5 * sum_f conj(Rx1[t,f]) * (Q @ Rx2[t])[f]. -/
def qHatExact (ndlys : ℕ) (Rx1 Rx2 : Fin nt → Fin nf → K)
    (Qalt : ℕ → Matrix (Fin nf) (Fin nf) K)
    (delTau : K) (beamInt : Matrix (Fin nf) (Fin nf) K) :
    ℕ → Fin nt → K :=
  fun a t =>
    if a < ndlys then
      (1 / 2) * ∑ f, star (Rx1 t f) *
        (∑ g, (delTau * Qalt a f g * beamInt f g) * Rx2 t g)
    else 0

/-- np.fft.fft along the frequency axis: X[k] = sum_m omega^(k m) x[m],
where omega stands for exp(-2 pi i / nf). -/
def npFFT (omega : K) (x : Fin nf → K) (k : Fin nf) : K :=
  ∑ m : Fin nf, omega ^ ((k : ℕ) * (m : ℕ)) * x m

/-- np.fft.fftshift: output[k] = input[(k + ceil(nf/2)) mod nf]. -/
def npFFTshift (x : Fin nf → K) (k : Fin nf) : K :=
  x ⟨((k : ℕ) + (nf + 1) / 2) % nf, Nat.mod_lt _ k.pos⟩

/-- The FFT shortcut branch of PSpecData.q_hat (valid only when
spw_Ndlys == spw_Nfreqs):
0.5 * fftshift(fft(Rx1)).conj() * fftshift(fft(Rx2)), transposed to
(delay, time). -/
def qHatFFT (omega : K) (Rx1 Rx2 : Fin nt → Fin nf → K) :
    ℕ → Fin nt → K :=
  fun k t =>
    if h : k < nf then
      (1 / 2) * star (npFFTshift (npFFT omega (Rx1 t)) ⟨k, h⟩) *
        npFFTshift (npFFT omega (Rx2 t)) ⟨k, h⟩
    else 0

/-- The direct-sum branch of PSpecData.q_hat:
q[a,t] = 0.5 * sum_f conj(Rx1[t,f]) * (get_Q_alt(a) @ Rx2[t])[f]. -/
def qHatDirect (ndlys : ℕ) (Rx1 Rx2 : Fin nt → Fin nf → K)
    (Qalt : ℕ → Matrix (Fin nf) (Fin nf) K) :
    ℕ → Fin nt → K :=
  fun a t =>
    if a < ndlys then
      (1 / 2) * ∑ f, star (Rx1 t f) * (∑ g, Qalt a f g * Rx2 t g)
    else 0

/-- Branch dispatch of PSpecData.q_hat, acting on the already
weighted data vectors Rx1 = R_1 x_1 and Rx2 = R_2 x_2 (the source
forms these first, for a single key or summed over a key list).
The guards appear in source order: the exact_norm && allow_fft
combination raises NotImplementedError before any branch runs; the
FFT shortcut additionally requires spw_Nfreqs == spw_Ndlys. -/
def q_hat (ndlys : ℕ) (exact_norm allow_fft : Bool)
    (Rx1 Rx2 : Fin nt → Fin nf → K)
    (Qalt : ℕ → Matrix (Fin nf) (Fin nf) K)
    (delTau : K) (beamInt : Matrix (Fin nf) (Fin nf) K) (omega : K) :
    Except String (ℕ → Fin nt → K) :=
  if exact_norm && allow_fft then
    Except.error "NotImplementedError: Exact normalization does not support FFT approach at present"
  else if exact_norm && !allow_fft then
    Except.ok (qHatExact ndlys Rx1 Rx2 Qalt delTau beamInt)
  else if allow_fft && decide (nf = ndlys) then
    Except.ok (qHatFFT omega Rx1 Rx2)
  else
    Except.ok (qHatDirect ndlys Rx1 Rx2 Qalt)

/-- The normalization modes accepted by _get_M and get_MW. -/
def mNormModes : List String := ["H^-1", "V^-1/2", "I", "L^-1", "H^-1/2"]

/-- Association-list lookup, modelling a Python dict read. -/
def lookupKey {A B : Type} [DecidableEq A] (m : List (A × B)) (k : A) :
    Option B :=
  (m.find? fun p => decide (p.1 = k)).map Prod.snd

/-- The inverse square root via eigendecomposition used by the
V^-1/2 and H^-1/2 branches:
eigvects @ diag(1/sqrt(eigvals)) @ eigvects.T, where the
eigendecomposition (np.linalg.eig) and np.sqrt are abstract
numerical primitives. -/
def eigMinusHalf (eig : Matrix (Fin nd) (Fin nd) K →
      (Fin nd → K) × Matrix (Fin nd) (Fin nd) K)
    (sqrtF : K → K) (A : Matrix (Fin nd) (Fin nd) K) :
    Matrix (Fin nd) (Fin nd) K :=
  let ev := eig A
  ev.2 * Matrix.diagonal (fun i => 1 / sqrtF (ev.1 i)) * ev.2.transpose

/-- PSpecData._get_M for a single time step, as a function of the
subsidiary matrices the source would fetch
(Gv from _get_G; HvFalse from _get_H with sampling=False, used by
the H^-1 branch; HvS from _get_H at the caller sampling flag, used
by the H^-1/2 branch) and of the abstract LAPACK primitives.
Guards appear in source order: the mode assertion, the cache lookup,
then the exact-norm restriction.  In the V^-1/2 branch the source
reads a local variable H that no branch assigned, so that branch
always raises UnboundLocalError.  The trailing nan/inf zeroing of
the source is the identity over an exact field, where degenerate
divisions are already total. -/
def getMSingle {MK : Type} [DecidableEq MK]
    (mode : String) (exact : Bool)
    (cache : List (MK × Matrix (Fin nd) (Fin nd) K)) (mkey : MK)
    (Gv HvFalse HvS : Matrix (Fin nd) (Fin nd) K)
    (matInv : Matrix (Fin nd) (Fin nd) K → Matrix (Fin nd) (Fin nd) K)
    (eig : Matrix (Fin nd) (Fin nd) K →
      (Fin nd → K) × Matrix (Fin nd) (Fin nd) K)
    (sqrtF : K → K) :
    Except String (Matrix (Fin nd) (Fin nd) K) :=
  if mode ∉ mNormModes then
    Except.error "AssertionError: mode not in modes"
  else
    match lookupKey cache mkey with
    | some M => Except.ok M
    | none =>
      if mode ≠ "I" ∧ exact = true then
        Except.error "NotImplementedError: Exact norm is not supported for non-I modes"
      else if mode = "H^-1" then
        Except.ok (matInv HvFalse)
      else if mode = "V^-1/2" then
        Except.error "UnboundLocalError: local variable H referenced before assignment"
      else if mode = "H^-1/2" then
        let hmh := eigMinusHalf eig sqrtF HvS
        Except.ok ((Matrix.diagonal fun i => 1 / rowSum (hmh * HvS) i) * hmh)
      else if mode = "I" then
        Except.ok (Matrix.diagonal fun i => 1 / rowSum Gv i)
      else
        Except.error "NotImplementedError: Cholesky decomposition mode not currently supported."

/-- PSpecData.get_MW (deprecated batch path): dispatch on the mode
string with the same assertion and exact-norm guard, then per-time
construction of M and W from the supplied G, H and optional band
covariance stacks. -/
def getMW (mode : String) (exact : Bool)
    (G H : Fin nt → Matrix (Fin nd) (Fin nd) K)
    (bandCovar : Option (Fin nt → Matrix (Fin nd) (Fin nd) K))
    (matInv : Matrix (Fin nd) (Fin nd) K → Matrix (Fin nd) (Fin nd) K)
    (eig : Matrix (Fin nd) (Fin nd) K →
      (Fin nd → K) × Matrix (Fin nd) (Fin nd) K)
    (sqrtF : K → K) :
    Except String ((Fin nt → Matrix (Fin nd) (Fin nd) K) ×
      (Fin nt → Matrix (Fin nd) (Fin nd) K)) :=
  if mode ∉ mNormModes then
    Except.error "AssertionError: mode not in modes"
  else if mode ≠ "I" ∧ exact = true then
    Except.error "NotImplementedError: Exact norm is not supported for non-I modes"
  else if mode = "H^-1" then
    Except.ok (fun t => matInv (H t),
      fun t => Matrix.of fun i j =>
        (matInv (H t) * H t) i j / rowSum (matInv (H t) * H t) i)
  else if mode = "V^-1/2" then
    match bandCovar with
    | none => Except.error "ValueError: Covariance not supplied for V^-1/2 normalization"
    | some VC =>
      let Mt := fun t =>
        (Matrix.diagonal fun i =>
          1 / rowSum (eigMinusHalf eig sqrtF (VC t) * H t) i) *
          eigMinusHalf eig sqrtF (VC t)
      Except.ok (Mt, fun t => Mt t * H t)
  else if mode = "H^-1/2" then
    let Mt := fun t =>
      (Matrix.diagonal fun i =>
        1 / rowSum (eigMinusHalf eig sqrtF (H t) * H t) i) *
        eigMinusHalf eig sqrtF (H t)
    Except.ok (Mt, fun t => Mt t * H t)
  else if mode = "I" then
    Except.ok (fun t => Matrix.diagonal fun i => 1 / rowSum (G t) i,
      fun t => (Matrix.diagonal fun i => 1 / rowSum (H t) i) * H t)
  else
    Except.error "NotImplementedError: Cholesky decomposition mode not currently supported."

end EstimatorCore

/-! Flag weights Y and the raw weight accessor w.  The source stores
flags per (channel, time); w converts them to float weights over the
extended spectral window slice starting at
spw_range[0] - filter_extension[0], and Y caches exactly that array.
Weights live in the rationals here (the float values are 0.0/1.0). -/

/-- PSpecData.w with include_extension=True and wgts=None:
weight (i,t) = float(not flags[lo + i, t]) where lo is the first
extended-window channel. -/
def wFlagWeights (flags : ℕ → ℕ → Bool) (lo : ℕ) (i t : ℕ) : ℚ :=
  if flags (lo + i) t then 0 else 1

/-- PSpecData.Y: the cached value is exactly
self.w(key, include_extension=True); no reduction across times is
performed by Y itself. -/
def Yweights (flags : ℕ → ℕ → Bool) (lo : ℕ) (i t : ℕ) : ℚ :=
  wFlagWeights flags lo i t

/-- Modelled from the spec words for claim C5 (refinement side):
a flag-weight vector derived by logical-AND flag reduction across
all ntimes times, broadcast to every time: a channel is flagged
(weight 0) only when it is flagged at every time. -/
def specY_andReduced (ntimes : ℕ) (flags : ℕ → ℕ → Bool) (lo : ℕ)
    (i _t : ℕ) : ℚ :=
  if ∀ u < ntimes, flags (lo + i) u then 0 else 1

/-! Delay-bin-count adjustment and its use in pspec().  The source
takes real parts of the complex row sums before dividing; the real
arithmetic is modelled over the rationals. -/

/-- PSpecData.scalar_delay_adjustment on one time step:
ratio = rowsum(H).real / rowsum(G).real with nan/inf entries (from a
zero rowsum(G)) replaced by 1, adjustment = Ndlys/(Nfreqs*ratio),
multiplied by mean(taper^2) when the taper is not none.
(When rowsum(H)=0 and rowsum(G) is nonzero the source produces an
inf that is never filled; the total rational division returns 0
there instead, a corner no claim touches.) -/
def scalar_delay_adjustment {nd : ℕ}
    (Gv Hv : Matrix (Fin nd) (Fin nd) ℚ) (ndlys nfreqs : ℚ)
    (taperIsNone : Bool) (taperMeanSq : ℚ) (i : Fin nd) : ℚ :=
  let hg := if rowSum Gv i = 0 then 1 else rowSum Hv i / rowSum Gv i
  let adj := ndlys / (nfreqs * hg)
  if taperIsNone then adj else adj * taperMeanSq

/-- The wide-bin adjustment step of PSpecData.pspec applied to the
normalized bandpowers pv: the source multiplies pv[:,t] by
scalar_delay_adjustment(Gv=Gv[t], Hv=Hv[t]) for every time t inside
an `if norm == I and not exact_norm` guard, and otherwise leaves pv
untouched. -/
def applyDelayAdjustment {nd nt : ℕ} (norm : String) (exact : Bool)
    (Gv Hv : Fin nt → Matrix (Fin nd) (Fin nd) ℚ) (ndlys nfreqs : ℚ)
    (taperIsNone : Bool) (taperMeanSq : ℚ)
    (pv : Fin nd → Fin nt → ℚ) : Fin nd → Fin nt → ℚ :=
  if norm = "I" ∧ exact = false then
    fun a t => pv a t *
      scalar_delay_adjustment (Gv t) (Hv t) ndlys nfreqs taperIsNone taperMeanSq a
  else pv

/-! The mutable state of a PSpecData object relevant to spectral
window changes and cache invalidation.  Cache keys are heterogeneous
Python tuples; they are abstracted into a type A with decidable
equality, and the cached arrays into a type B.  Each Python dict is
an association list. -/

/-- The spectral-window fields and the matrix caches of PSpecData. -/
structure PSpecState (A B : Type) where
  spw_range : ℕ × ℕ
  spw_Nfreqs : ℕ
  spw_Ndlys : Option ℕ
  filter_extension : ℕ × ℕ
  Nfreqs : ℕ
  C : List (A × B)
  I : List (A × B)
  iC : List (A × B)
  Y : List (A × B)
  R : List (A × B)
  G : List (A × B)
  H : List (A × B)
  W : List (A × B)
  M : List (A × B)
  E : List (A × B)
  V : List (A × B)
  r_params : List (A × B)

/-- Deletion of a list of keys from a dict (the try del / except
KeyError loop of clear_cache). -/
def deleteKeys {A B : Type} [DecidableEq A] (m : List (A × B))
    (ks : List A) : List (A × B) :=
  m.filter fun p => decide (p.1 ∉ ks)

/-- PSpecData.clear_cache: with keys=None every matrix cache is
emptied (and r_params only when clear_r_params is set); with an
explicit key list, only the C, I, iC, r_params, Y and R dicts have
the matching entries deleted. -/
def clear_cache {A B : Type} [DecidableEq A] (s : PSpecState A B)
    (clearRparams : Bool) (keys : Option (List A)) : PSpecState A B :=
  let s0 := if clearRparams then { s with r_params := [] } else s
  match keys with
  | none =>
      { s0 with C := [], I := [], iC := [], Y := [], R := [],
                H := [], G := [], W := [], M := [], E := [], V := [] }
  | some ks =>
      { s0 with C := deleteKeys s0.C ks, I := deleteKeys s0.I ks,
                iC := deleteKeys s0.iC ks,
                r_params := deleteKeys s0.r_params ks,
                Y := deleteKeys s0.Y ks, R := deleteKeys s0.R ks }

/-- PSpecData.set_spw: stores the range and the window width; no
other field of the object is touched. -/
def set_spw {A B : Type} (s : PSpecState A B) (r : ℕ × ℕ) :
    PSpecState A B :=
  { s with spw_range := r, spw_Nfreqs := r.2 - r.1 }

/-- PSpecData.set_filter_extension: clips both extensions to the
available channels outside the window and stores them. -/
def set_filter_extension {A B : Type} (s : PSpecState A B)
    (fe : ℕ × ℕ) : PSpecState A B :=
  { s with filter_extension :=
      (min s.spw_range.1 fe.1, min (s.Nfreqs - s.spw_range.2) fe.2) }

/-- PSpecData.set_Ndlys: defaults to spw_Nfreqs, and refuses more
delay bins than frequency channels. -/
def set_Ndlys {A B : Type} (s : PSpecState A B) (ndlys : Option ℕ) :
    Except String (PSpecState A B) :=
  match ndlys with
  | none => Except.ok { s with spw_Ndlys := some s.spw_Nfreqs }
  | some n =>
      if s.spw_Nfreqs < n then
        Except.error "ValueError: Cannot estimate more delays than there are frequency channels"
      else Except.ok { s with spw_Ndlys := some n }

/-- The per-spectral-window setup block at the top of
PSpecData.pspec: set_spw, set_filter_extension, set_Ndlys, then an
unconditional clear_cache(). -/
def pspecSetupSpw {A B : Type} [DecidableEq A] (s : PSpecState A B)
    (r fe : ℕ × ℕ) (ndlys : Option ℕ) :
    Except String (PSpecState A B) :=
  match set_Ndlys (set_filter_extension (set_spw s r) fe) ndlys with
  | Except.error e => Except.error e
  | Except.ok s3 => Except.ok (clear_cache s3 false none)

/-! Concrete instances used by the witnesses. -/

/-- All-zero per-time R stack on one-dimensional data. -/
def zeroRstack : Fin 1 → Matrix (Fin 1) (Fin 1) ℚ := fun _ => 0

/-- All-zero kernel family on one-dimensional data. -/
def zeroQfam : Fin 1 → Matrix (Fin 1) (Fin 1) ℚ := fun _ => 0

/-- Trivial abstract sinc function. -/
def oneSincF : ℤ → ℚ := fun _ => 1

/-- Identity stand-in for np.sqrt on the rationals; on the inputs a
witness uses (products y*y with y = 1) it agrees with the real
square root. -/
def idSqrtQ : ℚ → ℚ := fun x => x

/-- All-ones flag-weight column on two extended channels. -/
def onesY2 : Fin 2 → ℚ := fun _ => 1

/-- Taper vector of ones (taper=none) on one channel. -/
def onesTaper1 : Fin 1 → ℚ := fun _ => 1

/-- A concrete PSpecData state whose G cache holds one entry. -/
def cacheProbe : PSpecState ℕ ℕ where
  spw_range := (0, 4)
  spw_Nfreqs := 4
  spw_Ndlys := some 4
  filter_extension := (0, 0)
  Nfreqs := 8
  C := []
  I := []
  iC := []
  Y := []
  R := []
  G := [(0, 7)]
  H := []
  W := []
  M := []
  E := []
  V := []
  r_params := []

/-- Flags that vary with time: channel 0 is flagged at time 0 only. -/
def varFlags : ℕ → ℕ → Bool := fun c t => c == 0 && t == 0

/-- Time-independent (everywhere false) flags. -/
def constFalseFlags : ℕ → ℕ → Bool := fun _ _ => false

/-- One-by-one all-ones G stack. -/
def gOne : Fin 1 → Matrix (Fin 1) (Fin 1) ℚ := fun _ => Matrix.of fun _ _ => 1

/-- One-by-one all-twos H stack. -/
def hTwo : Fin 1 → Matrix (Fin 1) (Fin 1) ℚ := fun _ => Matrix.of fun _ _ => 2

/-- All-ones normalized bandpower array. -/
def pvOne : Fin 1 → Fin 1 → ℚ := fun _ _ => 1

/-- Trivial eigendecomposition stand-in for a witness. -/
def trivEig : Matrix (Fin 1) (Fin 1) ℚ →
    (Fin 1 → ℚ) × Matrix (Fin 1) (Fin 1) ℚ := fun _ => (fun _ => 1, 1)

/-- Trivial matrix-inverse stand-in for a witness. -/
def trivInv : Matrix (Fin 1) (Fin 1) ℚ → Matrix (Fin 1) (Fin 1) ℚ :=
  fun A => A

/-- The state produced by the pspec() spectral-window setup block on
cacheProbe with window (1,3), no extension and default Ndlys. -/
def probeAfterSetup : PSpecState ℕ ℕ where
  spw_range := (1, 3)
  spw_Nfreqs := 2
  spw_Ndlys := some 2
  filter_extension := (0, 0)
  Nfreqs := 8
  C := []
  I := []
  iC := []
  Y := []
  R := []
  G := []
  H := []
  W := []
  M := []
  E := []
  V := []
  r_params := []

/-! ## Theorems -/

section Theorems

set_option linter.unusedSectionVars false

variable {K : Type} [Field K] [StarRing K] [DecidableEq K]
variable {nd nf nx nt : ℕ}

/-- C1: for normalization mode I the window matrix produced by
PSpecData._get_W is diag(1/rowsum(H)) @ H, so every row whose
corresponding row sum of the response matrix H is nonzero sums to
exactly 1, for every pair of keys, time index, spectral window and
baseline-pair (the statement is universal in the already computed M
and H matrices, hence covers them all). -/
theorem C1_window_rows_sum_to_one
    (M H : Matrix (Fin nd) (Fin nd) K) (i : Fin nd)
    (h : rowSum H i ≠ 0) :
    rowSum (computeW M H "I") i = 1 := by
  have hmode : computeW M H "I" =
      (Matrix.diagonal fun k => 1 / rowSum H k) * H := by
    unfold computeW
    rw [if_neg (by decide), if_pos rfl]
  rw [hmode]
  have hsum : rowSum ((Matrix.diagonal fun k => 1 / rowSum H k) * H) i =
      (1 / rowSum H i) * rowSum H i := by
    unfold rowSum
    simp only [Matrix.diagonal_mul]
    rw [← Finset.mul_sum]
  rw [hsum, one_div, inv_mul_cancel₀ h]

/-- Witness for C1 at a concrete input: the one-channel identity
response matrix has nonzero row sum and its window row sums to 1. -/
theorem C1_window_rows_sum_to_one_witness :
    rowSum (1 : Matrix (Fin 1) (Fin 1) ℚ) 0 ≠ 0 ∧
    rowSum (computeW (1 : Matrix (Fin 1) (Fin 1) ℚ) 1 "I") 0 = 1 :=
  ⟨by simp [rowSum, Matrix.one_apply],
   C1_window_rows_sum_to_one 1 1 0 (by simp [rowSum, Matrix.one_apply])⟩

/-- C2: with sampling=True and exact_norm=False the response matrix
returned by get_H coincides with the Fisher matrix returned by
get_G, for every pair of keys, every time index and identical
estimator state: the sinc dampening is the only difference between
the two computations and sampling=True disables it.  The all-zero
to identity substitution applied by both wrappers is identical as
well, so the full stacked outputs agree. -/
theorem C2_getH_sampling_true_eq_getG
    (R1 R2 : Fin nt → Matrix (Fin nf) (Fin nx) K)
    (Qalt1 : Fin nd → Matrix (Fin nf) (Fin nf) K)
    (Qalt2 : Fin nd → Matrix (Fin nx) (Fin nx) K)
    (qn1 : Matrix (Fin nf) (Fin nf) K)
    (qn2 : Matrix (Fin nx) (Fin nx) K) (sincF : ℤ → K) :
    getH R1 R2 Qalt1 Qalt2 false qn1 qn2 sincF true =
      getG R1 R2 Qalt1 Qalt2 false qn1 qn2 := rfl

/-- C8: whenever the stacked per-time G (respectively H) matrices
are numerically all-zero, get_G (respectively get_H) substitutes the
identity matrix of size Ndlys for every requested time. -/
theorem C8_allzero_identity_substitution :
    (∀ (R1 R2 : Fin nt → Matrix (Fin nf) (Fin nx) K)
      (Qalt1 : Fin nd → Matrix (Fin nf) (Fin nf) K)
      (Qalt2 : Fin nd → Matrix (Fin nx) (Fin nx) K)
      (exact : Bool) (qn1 : Matrix (Fin nf) (Fin nf) K)
      (qn2 : Matrix (Fin nx) (Fin nx) K),
      (∀ t i j, computeG (R1 t) (R2 t) Qalt1 Qalt2 exact qn1 qn2 i j = 0) →
      ∀ t, getG R1 R2 Qalt1 Qalt2 exact qn1 qn2 t = 1) ∧
    (∀ (R1 R2 : Fin nt → Matrix (Fin nf) (Fin nx) K)
      (Qalt1 : Fin nd → Matrix (Fin nf) (Fin nf) K)
      (Qalt2 : Fin nd → Matrix (Fin nx) (Fin nx) K)
      (exact : Bool) (qn1 : Matrix (Fin nf) (Fin nf) K)
      (qn2 : Matrix (Fin nx) (Fin nx) K) (sincF : ℤ → K) (sampling : Bool),
      (∀ t i j,
        computeH (R1 t) (R2 t) Qalt1 Qalt2 exact qn1 qn2 sincF sampling i j = 0) →
      ∀ t, getH R1 R2 Qalt1 Qalt2 exact qn1 qn2 sincF sampling t = 1) := by
  constructor
  · intro R1 R2 Qalt1 Qalt2 exact qn1 qn2 h t
    have hG : getG R1 R2 Qalt1 Qalt2 exact qn1 qn2 = fun _ => 1 := by
      simp only [getG]
      exact if_pos h
    exact congrFun hG t
  · intro R1 R2 Qalt1 Qalt2 exact qn1 qn2 sincF sampling h t
    have hH : getH R1 R2 Qalt1 Qalt2 exact qn1 qn2 sincF sampling = fun _ => 1 := by
      simp only [getH]
      exact if_pos h
    exact congrFun hH t

/-- Witness for C8 at a concrete input: with zero weighting matrices
every per-time G and H entry vanishes, and both wrappers return the
identity matrix. -/
theorem C8_allzero_identity_substitution_witness :
    (∀ t i j, computeG (zeroRstack t) (zeroRstack t) zeroQfam zeroQfam
      false 1 1 i j = 0) ∧
    getG zeroRstack zeroRstack zeroQfam zeroQfam false 1 1 0 = 1 ∧
    getH zeroRstack zeroRstack zeroQfam zeroQfam false 1 1 oneSincF false 0 = 1 := by
  have hzG : ∀ (t i j : Fin 1),
      computeG (zeroRstack t) (zeroRstack t) zeroQfam zeroQfam false 1 1 i j = 0 := by
    intro t i j
    simp [computeG, qKernel1, qKernel2, zeroRstack, zeroQfam]
  have hzH : ∀ (t i j : Fin 1),
      computeH (zeroRstack t) (zeroRstack t) zeroQfam zeroQfam
        false 1 1 oneSincF false i j = 0 := by
    intro t i j
    simp [computeH, qKernel1, qKernel2, zeroRstack, zeroQfam]
  exact ⟨hzG,
    C8_allzero_identity_substitution.1 zeroRstack zeroRstack zeroQfam zeroQfam
      false 1 1 hzG 0,
    C8_allzero_identity_substitution.2 zeroRstack zeroRstack zeroQfam zeroQfam
      false 1 1 oneSincF false hzH 0⟩

/-- C3: with data_weighting=identity and taper=none, each time slice
of PSpecData.R equals the extension-truncation matrix applied to the
diagonal matrix of the flag weights of that time (R = tmat @ diag(Y)),
provided np.sqrt inverts the squares of the weight entries (true for
the nonnegative flag weights the source feeds in). -/
theorem C3_R_identity_taper_none (sqrtF : K → K) (y : Fin nx → K)
    (fext0 : ℕ) (hs : ∀ j, sqrtF (y j * y j) = y j) :
    Rsingle_identity (fun _ => 1) sqrtF y fext0 =
      (tmatTrunc fext0 : Matrix (Fin nf) (Fin nx) K) * Matrix.diagonal y := by
  ext i j
  simp only [Rsingle_identity, Matrix.of_apply, one_mul]
  rw [Matrix.mul_apply, Matrix.mul_apply]
  apply Finset.sum_congr rfl
  intro k _
  simp only [rmatIdentity, Matrix.of_apply, Matrix.one_apply,
    Matrix.diagonal_apply]
  by_cases hkj : k = j
  · subst hkj
    simp [hs]
  · simp [hkj]

/-- Witness for C3 at a concrete input: all-ones weights on two
extended channels, one window channel, extension offset 1. -/
theorem C3_R_identity_taper_none_witness :
    (∀ j : Fin 2, idSqrtQ (onesY2 j * onesY2 j) = onesY2 j) ∧
    (Rsingle_identity onesTaper1 idSqrtQ onesY2 1 :
        Matrix (Fin 1) (Fin 2) ℚ) =
      tmatTrunc 1 * Matrix.diagonal onesY2 := by
  have hs : ∀ j : Fin 2, idSqrtQ (onesY2 j * onesY2 j) = onesY2 j := by
    intro j
    simp [idSqrtQ, onesY2]
  have htaper : onesTaper1 = (fun _ => (1 : ℚ)) := rfl
  exact ⟨hs, htaper ▸ C3_R_identity_taper_none idSqrtQ onesY2 1 hs⟩

/-- C4 counterexample: set_spw does not invalidate the caches.  At a
concrete state whose G cache is nonempty, set_spw changes the
spectral window but the cached G entry survives, contradicting the
claim that immediately after set_spw no cache holds an entry
computed under the previous spectral-window state. -/
theorem C4_counterexample_set_spw_keeps_cache :
    (set_spw cacheProbe (1, 3)).spw_range ≠ cacheProbe.spw_range ∧
    (set_spw cacheProbe (1, 3)).G = [(0, 7)] :=
  ⟨by decide, rfl⟩

/-- C4 amended: set_spw only rewrites spw_range and spw_Nfreqs and
leaves every cache dict untouched; the invalidation the spec asks
for is performed by the pspec() orchestration, whose per-window
setup block (set_spw, set_filter_extension, set_Ndlys, clear_cache)
always hands over a state with every matrix cache empty. -/
theorem C4_amended_set_spw_frame_and_pspec_clears {A B : Type}
    [DecidableEq A] :
    (∀ (s : PSpecState A B) (r : ℕ × ℕ),
      (set_spw s r).C = s.C ∧ (set_spw s r).I = s.I ∧
      (set_spw s r).iC = s.iC ∧ (set_spw s r).Y = s.Y ∧
      (set_spw s r).R = s.R ∧ (set_spw s r).G = s.G ∧
      (set_spw s r).H = s.H ∧ (set_spw s r).W = s.W ∧
      (set_spw s r).M = s.M ∧ (set_spw s r).E = s.E ∧
      (set_spw s r).V = s.V ∧ (set_spw s r).r_params = s.r_params) ∧
    (∀ (s : PSpecState A B) (r fe : ℕ × ℕ) (ndlys : Option ℕ)
      (s2 : PSpecState A B),
      pspecSetupSpw s r fe ndlys = Except.ok s2 →
      s2.C = [] ∧ s2.I = [] ∧ s2.iC = [] ∧ s2.Y = [] ∧ s2.R = [] ∧
      s2.G = [] ∧ s2.H = [] ∧ s2.W = [] ∧ s2.M = [] ∧ s2.E = [] ∧
      s2.V = []) := by
  constructor
  · intro s r
    exact ⟨rfl, rfl, rfl, rfl, rfl, rfl, rfl, rfl, rfl, rfl, rfl, rfl⟩
  · intro s r fe ndlys s2 h
    unfold pspecSetupSpw at h
    cases hnd : set_Ndlys (set_filter_extension (set_spw s r) fe) ndlys with
    | error e =>
        rw [hnd] at h
        exact Except.noConfusion h
    | ok s3 =>
        rw [hnd] at h
        rw [Except.ok.injEq] at h
        subst h
        exact ⟨rfl, rfl, rfl, rfl, rfl, rfl, rfl, rfl, rfl, rfl, rfl⟩

/-- Witness for C4 amended at a concrete state: the setup block
succeeds on cacheProbe and empties its G cache. -/
theorem C4_amended_set_spw_frame_and_pspec_clears_witness :
    (set_spw cacheProbe (1, 3)).G = cacheProbe.G ∧
    pspecSetupSpw cacheProbe (1, 3) (0, 0) none =
      Except.ok probeAfterSetup ∧
    probeAfterSetup.G = [] :=
  ⟨((C4_amended_set_spw_frame_and_pspec_clears (A := ℕ) (B := ℕ)).1
      cacheProbe (1, 3)).2.2.2.2.2.1,
   rfl,
   ((C4_amended_set_spw_frame_and_pspec_clears (A := ℕ) (B := ℕ)).2
      cacheProbe (1, 3) (0, 0) none probeAfterSetup rfl).2.2.2.2.2.1⟩

/-- C5 counterexample: Y performs no logical-AND reduction across
times.  With a flag pattern that flags channel 0 at time 0 only, the
weight returned by Y at (channel 0, time 0) is 0 and at time 1 is 1,
so the returned weights are time-dependent; the AND-reduced vector
of the claim would give weight 1 at both times. -/
theorem C5_counterexample_Y_time_dependent :
    Yweights varFlags 0 0 0 = 0 ∧ Yweights varFlags 0 0 1 = 1 ∧
    specY_andReduced 2 varFlags 0 0 0 = 1 ∧
    Yweights varFlags 0 0 0 ≠ specY_andReduced 2 varFlags 0 0 0 := by
  have hnot : ¬ ∀ u < 2, varFlags (0 + 0) u = true := by decide
  refine ⟨rfl, rfl, ?_, ?_⟩
  · unfold specY_andReduced
    rw [if_neg hnot]
  · unfold Yweights wFlagWeights specY_andReduced
    rw [if_neg hnot]
    simp [varFlags]

/-- C5 amended: Y returns the raw per-time flag weights
w(key, include_extension=True) with no reduction across times; it
agrees with the AND-reduced, time-broadcast weight vector of the
docstring exactly when the underlying flags are already
time-independent (the situation produced by the separate
broadcast_dset_flags preprocessing step). -/
theorem C5_amended_Y_is_raw_per_time_weights
    (flags : ℕ → ℕ → Bool) (lo i t T : ℕ) (ht : t < T)
    (hconst : ∀ c t1 t2, flags c t1 = flags c t2) :
    Yweights flags lo i t = specY_andReduced T flags lo i t := by
  unfold Yweights wFlagWeights specY_andReduced
  by_cases hf : flags (lo + i) t
  · rw [if_pos hf, if_pos]
    intro u _
    rw [hconst (lo + i) u t]
    exact hf
  · rw [if_neg hf, if_neg]
    intro hall
    exact hf (hall t ht)

/-- Witness for C5 amended: everywhere-unflagged data at time 0 of a
single-time set. -/
theorem C5_amended_Y_is_raw_per_time_weights_witness :
    (0 : ℕ) < 1 ∧
    Yweights constFalseFlags 0 0 0 = specY_andReduced 1 constFalseFlags 0 0 0 :=
  ⟨by decide,
   C5_amended_Y_is_raw_per_time_weights constFalseFlags 0 0 0 1 (by decide)
     (fun _ _ _ => rfl)⟩

/-- C6: requesting q_hat with exact_norm=True together with the FFT
shortcut allow_fft=True raises NotImplementedError before any branch
computes, for every pair of weighted data vectors and every
estimator configuration. -/
theorem C6_qhat_exact_fft_error
    (ndlys : ℕ) (Rx1 Rx2 : Fin nt → Fin nf → K)
    (Qalt : ℕ → Matrix (Fin nf) (Fin nf) K)
    (delTau : K) (beamInt : Matrix (Fin nf) (Fin nf) K) (omega : K) :
    q_hat ndlys true true Rx1 Rx2 Qalt delTau beamInt omega =
      Except.error
        "NotImplementedError: Exact normalization does not support FFT approach at present" :=
  rfl

/-- C7: combining exact_norm=True with any supported normalization
mode other than I raises NotImplementedError, both in the per-time
path _get_M (on a cache miss, the only reachable case for such a
key) and in the deprecated batch path get_MW. -/
theorem C7_exact_norm_requires_mode_I {MK : Type} [DecidableEq MK] :
    (∀ (mode : String)
      (cache : List (MK × Matrix (Fin nd) (Fin nd) K)) (mkey : MK)
      (Gv HvFalse HvS : Matrix (Fin nd) (Fin nd) K)
      (matInv : Matrix (Fin nd) (Fin nd) K → Matrix (Fin nd) (Fin nd) K)
      (eig : Matrix (Fin nd) (Fin nd) K →
        (Fin nd → K) × Matrix (Fin nd) (Fin nd) K)
      (sqrtF : K → K),
      mode ∈ mNormModes → mode ≠ "I" → lookupKey cache mkey = none →
      getMSingle mode true cache mkey Gv HvFalse HvS matInv eig sqrtF =
        Except.error
          "NotImplementedError: Exact norm is not supported for non-I modes") ∧
    (∀ (mode : String) (G H : Fin nt → Matrix (Fin nd) (Fin nd) K)
      (bandCovar : Option (Fin nt → Matrix (Fin nd) (Fin nd) K))
      (matInv : Matrix (Fin nd) (Fin nd) K → Matrix (Fin nd) (Fin nd) K)
      (eig : Matrix (Fin nd) (Fin nd) K →
        (Fin nd → K) × Matrix (Fin nd) (Fin nd) K)
      (sqrtF : K → K),
      mode ∈ mNormModes → mode ≠ "I" →
      getMW mode true G H bandCovar matInv eig sqrtF =
        Except.error
          "NotImplementedError: Exact norm is not supported for non-I modes") := by
  constructor
  · intro mode cache mkey Gv HvFalse HvS matInv eig sqrtF hmem hne hlook
    unfold getMSingle
    rw [if_neg (not_not_intro hmem), hlook]
    exact if_pos ⟨hne, rfl⟩
  · intro mode G H bandCovar matInv eig sqrtF hmem hne
    unfold getMW
    rw [if_neg (not_not_intro hmem)]
    exact if_pos ⟨hne, rfl⟩

/-- Witness for C7 at mode H^-1 with an empty cache on one-channel
data. -/
theorem C7_exact_norm_requires_mode_I_witness :
    "H^-1" ∈ mNormModes ∧ "H^-1" ≠ "I" ∧
    lookupKey ([] : List (ℕ × Matrix (Fin 1) (Fin 1) ℚ)) 0 = none ∧
    getMSingle "H^-1" true ([] : List (ℕ × Matrix (Fin 1) (Fin 1) ℚ)) 0
      1 1 1 trivInv trivEig idSqrtQ =
      Except.error
        "NotImplementedError: Exact norm is not supported for non-I modes" ∧
    getMW "H^-1" true gOne hTwo none trivInv trivEig idSqrtQ =
      Except.error
        "NotImplementedError: Exact norm is not supported for non-I modes" := by
  have hmem : "H^-1" ∈ mNormModes := by simp [mNormModes]
  have hne : "H^-1" ≠ "I" := by decide
  exact ⟨hmem, hne, rfl,
    (@C7_exact_norm_requires_mode_I ℚ _ _ _ 1 1 ℕ _).1 "H^-1" [] 0
      1 1 1 trivInv trivEig idSqrtQ hmem hne rfl,
    (@C7_exact_norm_requires_mode_I ℚ _ _ _ 1 1 ℕ _).2 "H^-1" gOne hTwo
      none trivInv trivEig idSqrtQ hmem hne⟩

/-- C9 counterexample: at a configuration with norm=I,
exact_norm=False and Ndlys = Nfreqs = 1 the orchestration still
multiplies the normalized bandpower by the delay adjustment, which
here equals rowsum(G)/rowsum(H) = 1/2, so the bandpowers are not
left unadjusted when Ndlys equals Nfreqs. -/
theorem C9_counterexample_adjusts_when_bins_equal :
    applyDelayAdjustment "I" false gOne hTwo 1 1 true 1 pvOne 0 0 = 1 / 2 ∧
    pvOne 0 0 = 1 ∧ ((1 : ℚ) / 2) ≠ 1 := by
  refine ⟨?_, rfl, by norm_num⟩
  have hg : rowSum (gOne 0) (0 : Fin 1) = 1 := by
    simp [rowSum, gOne]
  have hh : rowSum (hTwo 0) (0 : Fin 1) = 2 := by
    simp [rowSum, hTwo]
  simp [applyDelayAdjustment, scalar_delay_adjustment, hg, hh, pvOne]

/-- C9 amended: the delay-bin-count adjustment is applied to the
normalized bandpowers exactly when norm=I and exact_norm=False,
irrespective of whether Ndlys equals Nfreqs; with a trivial taper
and nonzero row sums the multiplier is
Ndlys * rowsum(G) / (Nfreqs * rowsum(H)); for any other norm mode,
or with exact_norm=True, the bandpowers are returned unchanged. -/
theorem C9_amended_adjustment_condition {nd nt : ℕ} (norm : String)
    (exact : Bool) (Gv Hv : Fin nt → Matrix (Fin nd) (Fin nd) ℚ)
    (ndlys nfreqs : ℚ) (tN : Bool) (tM : ℚ)
    (pv : Fin nd → Fin nt → ℚ) (a : Fin nd) (t : Fin nt) :
    (norm = "I" → exact = false →
      applyDelayAdjustment norm exact Gv Hv ndlys nfreqs tN tM pv a t =
        pv a t *
          scalar_delay_adjustment (Gv t) (Hv t) ndlys nfreqs tN tM a) ∧
    (norm = "I" → exact = false → tN = true →
      rowSum (Gv t) a ≠ 0 → rowSum (Hv t) a ≠ 0 →
      applyDelayAdjustment norm exact Gv Hv ndlys nfreqs tN tM pv a t =
        pv a t * (ndlys * rowSum (Gv t) a) / (nfreqs * rowSum (Hv t) a)) ∧
    (norm ≠ "I" →
      applyDelayAdjustment norm exact Gv Hv ndlys nfreqs tN tM pv = pv) ∧
    (exact = true →
      applyDelayAdjustment norm exact Gv Hv ndlys nfreqs tN tM pv = pv) := by
  refine ⟨?_, ?_, ?_, ?_⟩
  · intro hn he
    subst hn; subst he
    unfold applyDelayAdjustment
    rw [if_pos ⟨rfl, rfl⟩]
  · intro hn he htn hG hH
    subst hn; subst he; subst htn
    unfold applyDelayAdjustment
    rw [if_pos ⟨rfl, rfl⟩]
    unfold scalar_delay_adjustment
    rw [if_neg hG, if_pos rfl]
    field_simp
  · intro hn
    unfold applyDelayAdjustment
    rw [if_neg]
    intro hc
    exact hn hc.1
  · intro he
    subst he
    unfold applyDelayAdjustment
    rw [if_neg]
    intro hc
    exact absurd hc.2 (by decide)

/-- Witness for C9 amended: the multiplier at the C9 counterexample
configuration, and the untouched result for norm=H^-1. -/
theorem C9_amended_adjustment_condition_witness :
    (applyDelayAdjustment "I" false gOne hTwo 1 1 true 1 pvOne 0 0 =
      pvOne 0 0 * (1 * rowSum (gOne 0) 0) / (1 * rowSum (hTwo 0) 0)) ∧
    applyDelayAdjustment "H^-1" false gOne hTwo 1 1 true 1 pvOne = pvOne := by
  have hG : rowSum (gOne 0) (0 : Fin 1) ≠ 0 := by
    simp [rowSum, gOne]
  have hH : rowSum (hTwo 0) (0 : Fin 1) ≠ 0 := by
    simp [rowSum, hTwo]
  exact ⟨(C9_amended_adjustment_condition "I" false gOne hTwo 1 1 true 1
      pvOne 0 0).2.1 rfl rfl rfl hG hH,
    (C9_amended_adjustment_condition "H^-1" false gOne hTwo 1 1 true 1
      pvOne 0 0).2.2.1 (by decide)⟩

/-- C10: clear_cache with an explicit key list removes the matching
entries from the C, I, iC, r_params, Y and R dicts only; the G, H,
M, W, E and V caches are left exactly as they were. -/
theorem C10_keyed_clear_frame {A B : Type} [DecidableEq A]
    (s : PSpecState A B) (ks : List A) :
    (clear_cache s false (some ks)).G = s.G ∧
    (clear_cache s false (some ks)).H = s.H ∧
    (clear_cache s false (some ks)).M = s.M ∧
    (clear_cache s false (some ks)).W = s.W ∧
    (clear_cache s false (some ks)).E = s.E ∧
    (clear_cache s false (some ks)).V = s.V ∧
    (clear_cache s false (some ks)).C = deleteKeys s.C ks ∧
    (clear_cache s false (some ks)).I = deleteKeys s.I ks ∧
    (clear_cache s false (some ks)).iC = deleteKeys s.iC ks ∧
    (clear_cache s false (some ks)).r_params = deleteKeys s.r_params ks ∧
    (clear_cache s false (some ks)).Y = deleteKeys s.Y ks ∧
    (clear_cache s false (some ks)).R = deleteKeys s.R ks :=
  ⟨rfl, rfl, rfl, rfl, rfl, rfl, rfl, rfl, rfl, rfl, rfl, rfl⟩

end Theorems

end HeraPspec
